import Mathlib

/-!
Verification of two NIR lowering passes from a Mesa snapshot:
`src/compiler/nir/nir_lower_double_ops.c` (double-precision op decomposition)
and `src/glsl/nir/nir_lower_vec_to_movs.c` (vecN-to-mov lowering with
producer folding).

The development shallowly embeds the relevant source functions:
 * the dataflow of the Newton-Raphson / Goldschmidt refinement sequences is
   embedded over `ℚ` with `ffma a b c = a * b + c` standing for the exact
   product-sum skeleton of `nir_ffma`;
 * the bit-pattern-level code (`get_exponent`, `nir_bfi`,
   `get_signed_inf`, `fix_inv_result`, `lower_trunc`) is embedded over `ℕ`
   with doubles as 64-bit patterns and 32-bit words reduced `% 2^32`;
 * the vec-to-movs pass is embedded over an explicit instruction-list
   program model with registers, swizzles and write masks.
-/

/-! Part 1: exact dataflow of the refinement sequences (ℚ level)

`ffma a b c` is the exact value skeleton of `nir_ffma(b, a, b, c)`:
a fused multiply-add computes `a * b + c` with a single rounding; at the
level of the algebraic identities claimed by the spec we compare the exact
(unrounded) dataflow expressions.  `fneg` is `nir_fneg`.
-/

def ffma (a b c : ℚ) : ℚ := a * b + c

def fneg (a : ℚ) : ℚ := -a

/-- The refinement instruction of `lower_rcp`
(`nir_lower_double_ops.c` lines 151-152, both lines are the same
expression applied twice):
`ra = nir_ffma(b, ra, nir_ffma(b, ra, src, nir_imm_double(b, -1)), ra)`. -/
def rcp_refine_step (ra src : ℚ) : ℚ :=
  ffma ra (ffma ra src (-1)) ra

/-- The Newton-Raphson step the spec (and the comment above the code,
lines 136-148) claims the instruction computes: `x ← x + x·(1 − x·src)`. -/
def rcp_newton_spec (x src : ℚ) : ℚ :=
  x + x * (1 - x * src)

/-- Shared Goldschmidt prefix of `lower_sqrt_rsq`
(`nir_lower_double_ops.c` lines 276-280):
`h_0 = 0.5*ra`, `g_0 = src*ra`, `r_0 = ffma(-h_0, g_0, 0.5)`,
`h_1 = ffma(h_0, r_0, h_0)`.  Returns `(h_0, g_0, r_0, h_1)`. -/
def sqrt_rsq_prefix (src ra : ℚ) : ℚ × ℚ × ℚ × ℚ :=
  let one_half : ℚ := 1/2
  let h_0 := one_half * ra
  let g_0 := src * ra
  let r_0 := ffma (fneg h_0) g_0 one_half
  let h_1 := ffma h_0 r_0 h_0
  (h_0, g_0, r_0, h_1)

/-- The `sqrt` branch of the refinement in `lower_sqrt_rsq`
(lines 282-285): `g_1 = ffma(g_0, r_0, g_0)`,
`r_1 = ffma(-g_1, g_1, src)`, `res = ffma(h_1, r_1, g_1)`. -/
def sqrt_refine (src ra : ℚ) : ℚ :=
  let p := sqrt_rsq_prefix src ra
  let g_0 := p.2.1
  let r_0 := p.2.2.1
  let h_1 := p.2.2.2
  let g_1 := ffma g_0 r_0 g_0
  let r_1 := ffma (fneg g_1) g_1 src
  ffma h_1 r_1 g_1

/-- The `rsq` branch of the refinement in `lower_sqrt_rsq`
(lines 286-291): `y_1 = 2*h_1`, `r_1 = ffma(-y_1, h_1*src, 0.5)`,
`res = ffma(y_1, r_1, y_1)`. -/
def rsq_refine (src ra : ℚ) : ℚ :=
  let p := sqrt_rsq_prefix src ra
  let h_1 := p.2.2.2
  let y_1 := (2 : ℚ) * h_1
  let r_1 := ffma (fneg y_1) (h_1 * src) (1/2)
  ffma y_1 r_1 y_1

/-- The formulas as written in the claim (spec wording), for `sqrt`:
`h₀ = 0.5·y₀`, `g₀ = a·y₀`, `r₀ = 0.5 − h₀·g₀`, `h₁ = h₀·r₀ + h₀`,
`g₁ = g₀·r₀ + g₀`, `r₁ = a − g₁²`, `result = h₁·r₁ + g₁`. -/
def sqrt_refine_spec (a y0 : ℚ) : ℚ :=
  let h0 := (1/2 : ℚ) * y0
  let g0 := a * y0
  let r0 := 1/2 - h0 * g0
  let h1 := h0 * r0 + h0
  let g1 := g0 * r0 + g0
  let r1 := a - g1 * g1
  h1 * r1 + g1

/-- The formulas as written in the claim (spec wording), for `rsqrt`:
`h₀ = 0.5·y₀`, `g₀ = a·y₀`, `r₀ = 0.5 − h₀·g₀`, `h₁ = h₀·r₀ + h₀`,
`y₁ = 2·h₁`, `r₁ = 0.5 − y₁·(h₁·a)`, `result = y₁·r₁ + y₁`. -/
def rsq_refine_spec (a y0 : ℚ) : ℚ :=
  let h0 := (1/2 : ℚ) * y0
  let g0 := a * y0
  let r0 := 1/2 - h0 * g0
  let h1 := h0 * r0 + h0
  let y1 := 2 * h1
  let r1 := 1/2 - y1 * (h1 * a)
  y1 * r1 + y1

/-! Part 2: bit-pattern embedding of the double lowering helpers

A double value is its 64-bit pattern (`ℕ`, `< 2^64`); a 32-bit word is a
pattern `< 2^32`.  `nir_unpack_double_2x32_split_x/_y` split a double into
its low and high words, `nir_pack_double_2x32_split` recombines.  Signed
32-bit comparisons (`nir_ige`, `nir_ilt`) read patterns through
`toSigned32`; `nir_isub` and `nir_ishl` wrap modulo `2^32`.
-/

def toSigned32 (n : ℕ) : ℤ := if n % 2^32 < 2^31 then (n % 2^32 : ℕ) else (n % 2^32 : ℕ) - 2^32

def isub32 (a b : ℕ) : ℕ := (a % 2^32 + 2^32 - b % 2^32) % 2^32

def ishl32 (a s : ℕ) : ℕ := ((a % 2^32) <<< (s % 32)) % 2^32

def ige32 (a b : ℕ) : Bool := decide (toSigned32 b ≤ toSigned32 a)

def ilt32 (a b : ℕ) : Bool := decide (toSigned32 a < toSigned32 b)

/-- Embeds `nir_bcsel(b, c, t, e)`: conditional select. -/
def bcsel {α : Type} (c : Bool) (t e : α) : α := if c then t else e

def unpack_double_2x32_split_x (s : ℕ) : ℕ := s % 2^32

def unpack_double_2x32_split_y (s : ℕ) : ℕ := s / 2^32 % 2^32

def pack_double_2x32_split (lo hi : ℕ) : ℕ := lo % 2^32 + 2^32 * (hi % 2^32)

/-- Embeds `nir_ubitfield_extract(b, v, offset, bits)` on a 32-bit word:
`(v >> offset) & ((1 << bits) - 1)`. -/
def ubitfield_extract32 (v off bits : ℕ) : ℕ := ((v % 2^32) >>> off) &&& (2^bits - 1)

/-- Embeds `get_exponent` (`nir_lower_double_ops.c` lines 59-67): extract bits
20-30 of the high word, i.e. the 11-bit biased exponent field. -/
def get_exponent (src : ℕ) : ℕ :=
  ubitfield_extract32 (unpack_double_2x32_split_y src) 20 11

/-- Embeds `nir_bfi(b, mask, insert, base)` on 32-bit words, following the NIR
opcode definition: if the mask is zero the result is `base`; otherwise
`insert` is shifted left by the number of trailing zeros of `mask`
(multiplication by the lowest set bit `mask &&& (2^32 - mask)`, wrapping
mod `2^32`; the subsequent `&&& mask` makes the wrap immaterial) and the
result is `(base & ~mask) | (insert' & mask)`. -/
def bfi32 (mask insert base : ℕ) : ℕ :=
  if mask % 2^32 = 0 then base % 2^32
  else ((base % 2^32) &&& ((mask % 2^32) ^^^ (2^32 - 1))) |||
       ((insert * ((mask % 2^32) &&& (2^32 - mask % 2^32))) &&& (mask % 2^32))

/-- Embeds `set_exponent` (`nir_lower_double_ops.c` lines 43-57): overwrite bits
52-62 of a double with `exp` by bit-field-inserting into the high word
under mask `0x7ff00000` and repacking. -/
def set_exponent (src exp : ℕ) : ℕ :=
  let lo := unpack_double_2x32_split_x src
  let hi := unpack_double_2x32_split_y src
  let new_hi := bfi32 0x7ff00000 exp hi
  pack_double_2x32_split lo new_hi

/-- Embeds `get_signed_inf` (`nir_lower_double_ops.c` lines 71-86): OR the high
word of the (zero-valued) source into the high word of +infinity and pack
with a zero low word. -/
def get_signed_inf (z : ℕ) : ℕ :=
  let zero_hi := unpack_double_2x32_split_y z
  let inf_hi := 0x7ff00000 ||| zero_hi
  pack_double_2x32_split 0 inf_hi

/-- Embeds `nir_fabs` on a double pattern: clear the sign bit. -/
def fabs64 (x : ℕ) : ℕ := x % 2^64 &&& (2^63 - 1)

/-- Embeds `nir_feq(b, nir_fabs(b, src), nir_imm_double(b, INFINITY))` on
patterns: a non-negative double equals +infinity exactly when its pattern
is `0x7ff0000000000000` (NaN patterns are strictly above it and compare
unequal, as IEEE requires). -/
def feq_abs_inf (src : ℕ) : Bool := fabs64 src == 0x7ff0000000000000

/-- Embeds `nir_fne(b, src, nir_imm_double(b, 0.0))` on patterns: IEEE `≠ 0.0` is
false exactly for the two zero patterns (absolute pattern zero); NaN
compares unequal (true). -/
def fne_zero (src : ℕ) : Bool := !(fabs64 src == 0)

/-- Embeds `fix_inv_result` (`nir_lower_double_ops.c` lines 94-114): flush to 0
when the corrected exponent is ≤ 0 or the input was ±infinity, then
override with a signed infinity when the input was ±0. -/
def fix_inv_result (res src exp : ℕ) : ℕ :=
  let res1 := bcsel (ige32 0 exp || feq_abs_inf src) 0 res
  bcsel (fne_zero src) res1 (get_signed_inf src)

/-- Embeds `lower_trunc` (`nir_lower_double_ops.c` lines 308-411).  The branchy
mask computation is embedded by evaluating both arms and selecting: the
`if`-region's two arms (`then_dest`, `else_dest`) merge at the single phi
node, modeled by the one `bcsel condition then_dest else_dest` below, and
the merged mask is then used to bit-field-insert zero into both words of
the source. -/
def lower_trunc (src : ℕ) : ℕ :=
  let unbiased_exp := isub32 (get_exponent src) 1023
  let frac_bits := isub32 52 unbiased_exp
  let condition1 := ige32 unbiased_exp 0
  let condition2 := ilt32 unbiased_exp 53
  let condition := condition1 && condition2
  let mask_lo := bcsel (ige32 frac_bits 32) 0xffffffff
      (isub32 (ishl32 1 frac_bits) 1)
  let mask_hi := bcsel (ilt32 frac_bits 33) 0
      (isub32 (ishl32 1 (isub32 frac_bits 32)) 1)
  let then_dest := pack_double_2x32_split mask_lo mask_hi
  let else_dest := bcsel (ilt32 unbiased_exp 0)
      (pack_double_2x32_split 0xffffffff 0x7fffffff) 0
  let mask := bcsel condition then_dest else_dest
  let mask_lo2 := unpack_double_2x32_split_x mask
  let mask_hi2 := unpack_double_2x32_split_y mask
  let src_lo := unpack_double_2x32_split_x src
  let src_hi := unpack_double_2x32_split_y src
  pack_double_2x32_split (bfi32 mask_lo2 0 src_lo) (bfi32 mask_hi2 0 src_hi)

/-! Part 3: the double-op lowering driver (`lower_doubles_instr`)

The driver claim is about dispatch and frame effect, not about the
numeric value a decomposition produces, so the model is parameterized
over the decomposition functions (one field per source function, value
level `ℕ → ℕ`); the theorem quantifies over all instantiations.  A
program is the list of all instructions; an instruction's operands
reference SSA values by number. -/

inductive DOp
  | frcp | fsqrt | frsq | ftrunc | ffloor | fceil | ffract | fround_even
  | otherOp (n : ℕ)
deriving DecidableEq

structure DOptions where
  drcp : Bool
  dsqrt : Bool
  drsq : Bool
  dtrunc : Bool
  dfloor : Bool
  dceil : Bool
  dfract : Bool
  dround_even : Bool
deriving DecidableEq

structure DInstr where
  iid : ℕ
  op : DOp
  bitSize : ℕ
  srcs : List ℕ
  destVal : ℕ
deriving DecidableEq

/-- The eight decomposition functions consumed by the driver, abstracted
to value level (`lower_sqrt_rsq` takes the `sqrt` flag like the C). -/
structure DecompFns where
  lower_rcp : ℕ → ℕ
  lower_sqrt_rsq : ℕ → Bool → ℕ
  lower_trunc : ℕ → ℕ
  lower_floor : ℕ → ℕ
  lower_ceil : ℕ → ℕ
  lower_fract : ℕ → ℕ
  lower_round_even : ℕ → ℕ

/-- Embeds `nir_ssa_def_rewrite_uses` restricted to one instruction: every source
operand referencing `old` now references `new`. -/
def rewriteUses (old new : ℕ) (j : DInstr) : DInstr :=
  { j with srcs := j.srcs.map fun v => if v = old then new else v }

/-- The second `switch` of `lower_doubles_instr` (lines 587-615): invoke
the decomposition function matching the opcode (with `sqrt = true` for
`fsqrt`, `sqrt = false` for `frsq`).  The default branch is
`unreachable("unhandled opcode")` and is never taken by the driver. -/
def dispatchDecomp (fns : DecompFns) (op : DOp) (src : ℕ) : ℕ :=
  match op with
  | .frcp => fns.lower_rcp src
  | .fsqrt => fns.lower_sqrt_rsq src true
  | .frsq => fns.lower_sqrt_rsq src false
  | .ftrunc => fns.lower_trunc src
  | .ffloor => fns.lower_floor src
  | .fceil => fns.lower_ceil src
  | .ffract => fns.lower_fract src
  | .fround_even => fns.lower_round_even src
  | .otherOp _ => src

/-- Embeds `lower_doubles_instr` (`nir_lower_double_ops.c` lines 526-619) acting
on `instr` inside program `prog`.  Mirrors the C control flow: return with
the program untouched if the destination bit size is not 64, or the first
`switch` (lines 533-576) finds an unhandled opcode or a disabled flag;
otherwise materialize the first operand (`nir_fmov_alu` of `src[0]`),
obtain the replacement from the matching decomposition function, rewrite
every use of the original destination value to the replacement
(`nir_ssa_def_rewrite_uses`) and remove the instruction
(`nir_instr_remove`). -/
def lower_doubles_instr (fns : DecompFns) (options : DOptions)
    (instr : DInstr) (prog : List DInstr) : List DInstr :=
  if instr.bitSize ≠ 64 then prog
  else
    let proceed : Bool :=
      match instr.op with
      | .frcp => options.drcp
      | .fsqrt => options.dsqrt
      | .frsq => options.drsq
      | .ftrunc => options.dtrunc
      | .ffloor => options.dfloor
      | .fceil => options.dceil
      | .ffract => options.dfract
      | .fround_even => options.dround_even
      | .otherOp _ => false
    if !proceed then prog
    else
      let src := instr.srcs.getD 0 0
      let result := dispatchDecomp fns instr.op src
      (prog.map (rewriteUses instr.destVal result)).filter
        (fun j => j.iid ≠ instr.iid)

/-- The claim's guard, phrased as in the claim: the per-opcode enable
flag when the opcode is one of the eight handled operations, `none`
otherwise. -/
def handledFlag (options : DOptions) : DOp → Option Bool
  | .frcp => some options.drcp
  | .fsqrt => some options.dsqrt
  | .frsq => some options.drsq
  | .ftrunc => some options.dtrunc
  | .ffloor => some options.dfloor
  | .fceil => some options.dceil
  | .ffract => some options.dfract
  | .fround_even => some options.dround_even
  | .otherOp _ => none

def c9fns : DecompFns :=
  ⟨fun v => v + 1, fun v _ => v + 2, fun v => v + 3, fun v => v + 4,
   fun v => v + 5, fun v => v + 6, fun v => v + 7⟩

def c9opts : DOptions := ⟨true, false, true, true, true, true, true, true⟩

def c9instr : DInstr := ⟨1, .frcp, 64, [5], 9⟩

def c9other : DInstr := ⟨2, .otherOp 0, 32, [9, 5], 11⟩

def c9prog : List DInstr := [c9instr, c9other]

/-! Part 4: the vec-to-movs pass (`nir_lower_vec_to_movs.c`)

Programs are lists of instructions inside one function.  An ALU
instruction has an id (standing for the C object identity), an opcode, a
destination (SSA value or register reference plus write mask) and
operands (source reference plus 4-entry swizzle).  Non-ALU instructions
(intrinsics, loads) are carried abstractly as their id, the registers
they define and the source references they consume — the pass skips them
but the register def/use bookkeeping (`reg->defs`, `reg->uses`,
maintained incrementally by the NIR core and recomputed here from the
program) sees them.  `nir_reg_remove` only drops the register record and
does not change the instruction stream, so it has no counterpart on the
program representation.  The pass asserts a register destination for the
vec instruction; theorems use register-destination programs. -/

inductive VSrcRef
  | ssa (vid : ℕ)
  | reg (r : ℕ) (baseOffset : ℕ) (indirect : Bool)
deriving DecidableEq

structure VAluSrc where
  src : VSrcRef
  swizzle : List ℕ
deriving DecidableEq

structure VAluDest where
  dst : VSrcRef
  writeMask : ℕ
deriving DecidableEq

inductive VOp
  | vec2 | vec3 | vec4 | imov | fadd | fmul | fdot2 | fdot3 | fdot4
  | otherAlu (n : ℕ)
deriving DecidableEq

structure VAluInstr where
  aid : ℕ
  op : VOp
  dest : VAluDest
  srcs : List VAluSrc
deriving DecidableEq

inductive VInstr
  | alu (a : VAluInstr)
  | nonAlu (nid : ℕ) (defRegs : List ℕ) (useSrcs : List VSrcRef)
deriving DecidableEq

def instrId : VInstr → ℕ
  | .alu a => a.aid
  | .nonAlu n _ _ => n

def defaultAluSrc : VAluSrc := ⟨.ssa 0, [0, 0, 0, 0]⟩

/-- Does this instruction define register `r` (membership in `r->defs`)? -/
def instrDefsReg (r : ℕ) : VInstr → Bool
  | .alu a =>
    match a.dest.dst with
    | .reg r2 _ _ => r2 == r
    | .ssa _ => false
  | .nonAlu _ ds _ => ds.contains r

/-- The def list `r->defs` read off the program, in program order. -/
def defsOf (prog : List VInstr) (r : ℕ) : List VInstr :=
  prog.filter (instrDefsReg r)

def srcUsesReg (r : ℕ) : VSrcRef → Bool
  | .reg r2 _ _ => r2 == r
  | .ssa _ => false

def instrUseCount (r : ℕ) : VInstr → ℕ
  | .alu a => (a.srcs.filter (fun s => srcUsesReg r s.src)).length
  | .nonAlu _ _ us => (us.filter (srcUsesReg r)).length

/-- Embeds `list_length(&reg->uses)`: the number of source operands in the whole
program that reference register `r`. -/
def usesCount (prog : List VInstr) (r : ℕ) : ℕ :=
  (prog.map (instrUseCount r)).sum

/-- Embeds `nir_instr_remove` (plus freeing): drop the instruction with this id. -/
def removeInstr (i : ℕ) (prog : List VInstr) : List VInstr :=
  prog.filter (fun j => instrId j ≠ i)

/-- Embeds `nir_instr_insert_before(target, newI)`. -/
def insertBefore (target : ℕ) (newI : VInstr) : List VInstr → List VInstr
  | [] => [newI]
  | j :: rest =>
    if instrId j = target then newI :: j :: rest
    else j :: insertBefore target newI rest

/-- Embeds `src_matches_dest_reg` (`nir_lower_vec_to_movs.c` lines 35-45): both
are register references to the same register with the same base offset
and no indirect addressing. -/
def src_matches_dest_reg (dest src : VSrcRef) : Bool :=
  match dest, src with
  | .reg rd bd di, .reg rs bs si => rd == rs && bd == bs && !di && !si
  | _, _ => false

/-- Embeds `nir_srcs_equal` on operand references (indirect modeled as a
presence flag; all programs in this file are indirect-free). -/
def srcs_equal (a b : VSrcRef) : Bool := a == b

/-- Merge loop of `insert_mov` (lines 70-79): for every later write-mask
channel that reads from the same source as the starting one, extend the
MOV's write mask and swizzle; `src_idx` advances on every write-mask
channel.  `fuel` only makes the recursion structural; the loop exits on
`i < 4` failing, and every call site passes `fuel = 4 ≥ 4 - i`, so the
fuel never runs out first. -/
def insert_mov_loop (vec : VAluInstr) (start_src_idx : ℕ) (fuel : ℕ)
    (i src_idx : ℕ) (movSrc : VAluSrc) (movMask : ℕ) : VAluSrc × ℕ :=
  match fuel with
  | 0 => (movSrc, movMask)
  | fuel + 1 =>
    if i < 4 then
      if vec.dest.writeMask.testBit i = false then
        insert_mov_loop vec start_src_idx fuel (i + 1) src_idx movSrc movMask
      else if srcs_equal (vec.srcs.getD src_idx defaultAluSrc).src
          (vec.srcs.getD start_src_idx defaultAluSrc).src then
        let newSwz :=
          movSrc.swizzle.set i ((vec.srcs.getD src_idx defaultAluSrc).swizzle.getD 0 0)
        insert_mov_loop vec start_src_idx fuel (i + 1) (src_idx + 1)
          { movSrc with swizzle := newSwz } (movMask ||| (1 <<< i))
      else insert_mov_loop vec start_src_idx fuel (i + 1) (src_idx + 1) movSrc movMask
    else (movSrc, movMask)

/-- Embeds `insert_mov` (lines 55-84), split into building the MOV (the caller
then inserts it before the vec and ORs its write mask into the finished
mask, as the C does in one step): copy source `start_src_idx` of the vec
and the vec's destination, write only `start_channel` (plus merged
channels), with `swizzle[start_channel] = vec->src[src_idx].swizzle[0]`. -/
def insert_mov_build (vec : VAluInstr) (start_channel start_src_idx movId : ℕ) :
    VAluInstr :=
  let s0 := vec.srcs.getD start_src_idx defaultAluSrc
  let movSrc0 : VAluSrc :=
    { s0 with swizzle := s0.swizzle.set start_channel (s0.swizzle.getD 0 0) }
  let r := insert_mov_loop vec start_src_idx 4 (start_channel + 1)
      (start_src_idx + 1) movSrc0 (1 <<< start_channel)
  { aid := movId, op := .imov,
    dest := { dst := vec.dest.dst, writeMask := r.2 },
    srcs := [r.1] }

/-- The `channel` computation of `clone_alu_instr_and_override_dest`
(lines 100-107): the producer's lowest written channel (the C leaves
`channel` uninitialized when the mask is 0; the model defaults to 0, and
the theorems assume a nonzero mask). -/
def lowestChannel (mask : ℕ) : ℕ :=
  ((List.range 4).find? (fun i => mask.testBit i)).getD 0

/-- Embeds `clone_alu_instr_and_override_dest` (lines 93-130).  `index` is the
vec destination channel being satisfied.  Dot-product opcodes keep their
swizzles unchanged; for others, source swizzle entry `index` is taken
from the producer's swizzle at its lowest written channel.  The clone
writes exactly destination channel `index`. -/
def clone_alu_instr_and_override_dest (alu : VAluInstr) (new_dest : VAluDest)
    (index cloneId : ℕ) : VAluInstr :=
  let channel := lowestChannel alu.dest.writeMask
  let isDot : Bool := alu.op == .fdot2 || alu.op == .fdot3 || alu.op == .fdot4
  let newSrcs := alu.srcs.map (fun s =>
    if isDot then s
    else { s with swizzle := s.swizzle.set index (s.swizzle.getD channel 0) })
  { aid := cloneId, op := alu.op,
    dest := { dst := new_dest.dst, writeMask := 1 <<< index },
    srcs := newSrcs }

/-- Pass state while lowering one vec instruction: the program, the next
fresh instruction id, the `finished_write_mask`, and ghost trace data
`folded` — the ids of producers that were cloned-and-removed by
producer folding (not part of the C state; recorded for the theorems). -/
structure PassState where
  prog : List VInstr
  fresh : ℕ
  finished : ℕ
  folded : List ℕ
deriving DecidableEq

/-- Body of the `nir_foreach_def_safe` loop (lines 168-216) for vec
channel `i`: skip non-ALU defs; `parent_dest_reg` is the parent's
destination register; skip when `list_length(&parent_dest_reg->uses) != 1`;
skip `imov` producers; otherwise clone the producer into the vec's
destination channel `i`, OR the clone's write mask into the finished
mask, remove the producer and insert the clone before the vec. -/
def fold_one_def (vec : VAluInstr) (i : ℕ) (s : PassState) (d : VInstr) :
    PassState :=
  match d with
  | .nonAlu _ _ _ => s
  | .alu parent =>
    match parent.dest.dst with
    | .ssa _ => s
    | .reg r _ _ =>
      if usesCount s.prog r ≠ 1 then s
      else if parent.op == .imov then s
      else
        let clone := clone_alu_instr_and_override_dest parent vec.dest i s.fresh
        { prog := insertBefore vec.aid (.alu clone)
            (removeInstr parent.aid s.prog),
          fresh := s.fresh + 1,
          finished := s.finished ||| clone.dest.writeMask,
          folded := s.folded ++ [parent.aid] }

/-- Producer folding for vec channel `i` (lines 155-217): skip channels
outside the write mask and channels whose source is an SSA value, then
walk the defs of the source register. -/
def fold_channel (vec : VAluInstr) (s : PassState) (i : ℕ) : PassState :=
  if vec.dest.writeMask.testBit i = false then s
  else
    match (vec.srcs.getD i defaultAluSrc).src with
    | .ssa _ => s
    | .reg r _ _ => (defsOf s.prog r).foldl (fold_one_def vec i) s

def fold_phase (vec : VAluInstr) (s : PassState) : PassState :=
  [0, 1, 2, 3].foldl (fold_channel vec) s

/-- First MOV-emission loop (lines 219-235): "emit a MOV for all the src
channels that are in the destination reg" — as written in the source it
skips channels whose finished bit is clear, does not advance `src_idx`
on skipped channels, and `break`s after the first emitted MOV. -/
def pre_mov_loop (vec : VAluInstr) (fuel i src_idx : ℕ) (s : PassState) :
    PassState :=
  match fuel with
  | 0 => s
  | fuel + 1 =>
    if i < 4 then
      if vec.dest.writeMask.testBit i = false then
        pre_mov_loop vec fuel (i + 1) src_idx s
      else if s.finished.testBit i = false then
        pre_mov_loop vec fuel (i + 1) src_idx s
      else if src_matches_dest_reg vec.dest.dst
          (vec.srcs.getD src_idx defaultAluSrc).src then
        let mov := insert_mov_build vec i src_idx s.fresh
        { s with prog := insertBefore vec.aid (.alu mov) s.prog,
                 fresh := s.fresh + 1,
                 finished := s.finished ||| mov.dest.writeMask }
      else pre_mov_loop vec fuel (i + 1) (src_idx + 1) s
    else s

/-- Second MOV-emission loop (lines 238-246): emit a MOV for every
write-mask channel whose finished bit is still clear; `src_idx` advances
on every write-mask channel. -/
def emit_mov_loop (vec : VAluInstr) (fuel i src_idx : ℕ) (s : PassState) :
    PassState :=
  match fuel with
  | 0 => s
  | fuel + 1 =>
    if i < 4 then
      if vec.dest.writeMask.testBit i = false then
        emit_mov_loop vec fuel (i + 1) src_idx s
      else if s.finished.testBit i = false then
        let mov := insert_mov_build vec i src_idx s.fresh
        emit_mov_loop vec fuel (i + 1) (src_idx + 1)
          { s with prog := insertBefore vec.aid (.alu mov) s.prog,
                   fresh := s.fresh + 1,
                   finished := s.finished ||| mov.dest.writeMask }
      else emit_mov_loop vec fuel (i + 1) (src_idx + 1) s
    else s

/-- The body of `lower_vec_to_movs_block`'s instruction loop
(lines 135-250) for one `vec2/vec3/vec4` instruction: producer folding,
the self-alias pre-pass MOV loop, the main MOV-emission loop, then
removal of the vec instruction itself. -/
def lower_vec_to_movs_one (vec : VAluInstr) (prog : List VInstr) (fresh : ℕ) :
    PassState :=
  let s1 := fold_phase vec ⟨prog, fresh, 0, []⟩
  let s2 := pre_mov_loop vec 4 0 0 s1
  let s3 := emit_mov_loop vec 4 0 0 s2
  { s3 with prog := removeInstr vec.aid s3.prog }

/-- Does this instruction write component `comp` of register `d`? -/
def writesComp (d comp : ℕ) : VInstr → Bool
  | .alu a =>
    (match a.dest.dst with
     | .reg r _ _ => r == d
     | .ssa _ => false) && a.dest.writeMask.testBit comp
  | .nonAlu _ _ _ => false

/-- Does this instruction write component `comp` of register `d` and is
it a bare MOV? -/
def movWritesComp (d comp : ℕ) : VInstr → Bool
  | .alu a => a.op == .imov && writesComp d comp (.alu a)
  | .nonAlu _ _ _ => false

/-- How many instructions of the program write component `comp` of
register `d`? -/
def countWriters (prog : List VInstr) (d comp : ℕ) : ℕ :=
  (prog.filter (writesComp d comp)).length

/-! Concrete programs exercising the pass.

`c2prog`: a `vec2` into register 2 whose second source is register 2
itself (exact alias: same register, base offset 0, no indirect) and whose
first source is register 1; register 1 is defined by a non-ALU
instruction (id 10) and register 2 has a later non-ALU reader (id 12), so
producer folding finds nothing and both components stay unfinished.

`c34prog`: a `vec3` into register 2 whose source 0 is register 2 itself,
source 1 is register 3 — defined solely by the `fadd` instruction 13
(`c34P`) whose register has exactly one use, so it is folded — and
source 2 is register 4, defined by a non-ALU instruction. -/

def c2vec : VAluInstr :=
  ⟨11, .vec2, ⟨.reg 2 0 false, 3⟩,
   [⟨.reg 1 0 false, [0, 0, 0, 0]⟩, ⟨.reg 2 0 false, [0, 0, 0, 0]⟩]⟩

def c2prog : List VInstr :=
  [.nonAlu 10 [1] [], .alu c2vec, .nonAlu 12 [] [.reg 2 0 false]]

def c34P : VAluInstr :=
  ⟨13, .fadd, ⟨.reg 3 0 false, 1⟩,
   [⟨.ssa 100, [0, 0, 0, 0]⟩, ⟨.ssa 101, [0, 0, 0, 0]⟩]⟩

def c34vec : VAluInstr :=
  ⟨11, .vec3, ⟨.reg 2 0 false, 7⟩,
   [⟨.reg 2 0 false, [0, 0, 0, 0]⟩, ⟨.reg 3 0 false, [0, 0, 0, 0]⟩,
    ⟨.reg 4 0 false, [0, 0, 0, 0]⟩]⟩

def c34prog : List VInstr :=
  [.nonAlu 10 [4] [], .alu c34P, .alu c34vec, .nonAlu 12 [] [.reg 2 0 false]]

def c10P : VAluInstr :=
  ⟨20, .fmul, ⟨.reg 7 0 false, 6⟩, [⟨.reg 8 0 false, [3, 2, 1, 0]⟩]⟩

def c10vec : VAluInstr :=
  ⟨30, .vec2, ⟨.reg 9 0 false, 3⟩,
   [⟨.reg 7 0 false, [1, 0, 0, 0]⟩, ⟨.ssa 5, [0, 0, 0, 0]⟩]⟩

def c10state : PassState := ⟨[.alu c10P, .alu c10vec], 40, 0, []⟩

def SurvInv (P : VAluInstr) (s : PassState) : Prop :=
  VInstr.alu P ∈ s.prog ∧ (∀ j ∈ s.prog, instrId j < s.fresh) ∧
    (s.prog.map instrId).Nodup ∧ P.aid ∉ s.folded

def c5P : VAluInstr :=
  ⟨21, .imov, ⟨.reg 5 0 false, 1⟩, [⟨.ssa 50, [0, 0, 0, 0]⟩]⟩

def c5vec : VAluInstr :=
  ⟨22, .vec2, ⟨.reg 6 0 false, 3⟩,
   [⟨.reg 5 0 false, [0, 0, 0, 0]⟩, ⟨.ssa 51, [0, 0, 0, 0]⟩]⟩

def c5prog : List VInstr := [.alu c5P, .alu c5vec]

/-- C1 (code_bug evidence).  The refinement instruction of `lower_rcp`
does not compute the Newton-Raphson step `x + x·(1 − x·src)` stated by the
spec and by the comment directly above the code: at the concrete input
`x = 1, src = 2` the instruction produces `2` while the claimed step
produces `0` (in exact arithmetic the instruction computes
`x + x·(x·src − 1) = x²·src`, the sign of the inner fused term is flipped). -/
theorem c1_rcp_refine_step_is_not_newton :
    rcp_refine_step 1 2 = 2 ∧ rcp_newton_spec 1 2 = 0 ∧
      rcp_refine_step 1 2 ≠ rcp_newton_spec 1 2 := by
  refine ⟨by norm_num [rcp_refine_step, ffma], by norm_num [rcp_newton_spec], ?_⟩
  norm_num [rcp_refine_step, rcp_newton_spec, ffma]

/-- C8 (confirmed).  The refinement stage of the lowered double square
root and inverse square root computes exactly the claimed quantities: for
every source `a` and exponent-corrected seed `y₀`, the `sqrt` branch value
equals `h₁·r₁ + g₁` and the `rsqrt` branch value equals `y₁·r₁ + y₁` with
`h₀ = 0.5·y₀`, `g₀ = a·y₀`, `r₀ = 0.5 − h₀·g₀`, `h₁ = h₀·r₀ + h₀`,
`g₁ = g₀·r₀ + g₀`, `r₁ = a − g₁²` (resp. `y₁ = 2·h₁`,
`r₁ = 0.5 − y₁·(h₁·a)`); each subtraction-containing step appears in the
embedded code as an `ffma` with a negated first factor. -/
theorem c8_sqrt_rsq_refine_formulas (a y0 : ℚ) :
    sqrt_refine a y0 = sqrt_refine_spec a y0 ∧
      rsq_refine a y0 = rsq_refine_spec a y0 := by
  constructor <;>
    simp only [sqrt_refine, rsq_refine, sqrt_rsq_prefix, sqrt_refine_spec,
      rsq_refine_spec, ffma, fneg] <;> ring

/-! Helper lemmas about the 32-bit primitive semantics. -/

lemma toSigned32_small {n : ℕ} (h : n < 2^31) : toSigned32 n = n := by
  unfold toSigned32
  rw [Nat.mod_eq_of_lt (lt_trans h (by norm_num))]
  rw [if_pos h]

lemma toSigned32_large {n : ℕ} (h1 : 2^31 ≤ n) (h2 : n < 2^32) :
    toSigned32 n = (n : ℤ) - 2^32 := by
  unfold toSigned32
  rw [Nat.mod_eq_of_lt h2, if_neg (by omega)]

lemma ige32_small {a b : ℕ} (ha : a < 2^31) (hb : b < 2^31) :
    ige32 a b = decide (b ≤ a) := by
  unfold ige32
  rw [toSigned32_small ha, toSigned32_small hb, decide_eq_decide]
  exact Nat.cast_le

lemma ilt32_small {a b : ℕ} (ha : a < 2^31) (hb : b < 2^31) :
    ilt32 a b = decide (a < b) := by
  unfold ilt32
  rw [toSigned32_small ha, toSigned32_small hb, decide_eq_decide]
  exact Nat.cast_lt

lemma isub32_eq_of_le {a b : ℕ} (hb : b ≤ a) (ha : a < 2^32) :
    isub32 a b = a - b := by
  unfold isub32
  have h32 : (2:ℕ)^32 = 4294967296 := by norm_num
  rw [h32] at ha ⊢
  omega

lemma isub32_eq_of_lt {a b : ℕ} (hab : a < b) (hb : b < 2^32) :
    isub32 a b = a + 2^32 - b := by
  unfold isub32
  have h32 : (2:ℕ)^32 = 4294967296 := by norm_num
  rw [h32] at hb ⊢
  omega

lemma ishl32_one {n : ℕ} (h : n < 32) : ishl32 1 n = 2^n := by
  unfold ishl32
  rw [Nat.mod_eq_of_lt h, Nat.mod_eq_of_lt (by norm_num : (1:ℕ) < 2^32),
    Nat.shiftLeft_eq, one_mul]
  exact Nat.mod_eq_of_lt (Nat.pow_lt_pow_right (by norm_num) h)

lemma unpack_x_pack {lo hi : ℕ} (hlo : lo < 2^32) :
    unpack_double_2x32_split_x (pack_double_2x32_split lo hi) = lo := by
  unfold unpack_double_2x32_split_x pack_double_2x32_split
  have h32 : (2:ℕ)^32 = 4294967296 := by norm_num
  rw [h32] at hlo ⊢
  omega

lemma unpack_y_pack {lo hi : ℕ} (hlo : lo < 2^32) (hhi : hi < 2^32) :
    unpack_double_2x32_split_y (pack_double_2x32_split lo hi) = hi := by
  unfold unpack_double_2x32_split_y pack_double_2x32_split
  have h32 : (2:ℕ)^32 = 4294967296 := by norm_num
  rw [h32] at hlo hhi ⊢
  omega

lemma land_compl_low_mask {fb base : ℕ} (hfb : fb ≤ 32) (hb : base < 2^32) :
    base &&& ((2^fb - 1) ^^^ (2^32 - 1)) = base - base % 2^fb := by
  have hdm := Nat.div_add_mod base (2^fb)
  have h2 : base - base % 2^fb = (base / 2^fb) <<< fb := by
    rw [Nat.shiftLeft_eq, Nat.mul_comm (base / 2^fb) (2^fb)]
    omega
  rw [h2]
  apply Nat.eq_of_testBit_eq
  intro i
  simp only [Nat.testBit_and, Nat.testBit_xor, Nat.testBit_two_pow_sub_one,
    Nat.testBit_shiftLeft]
  by_cases h1 : i < fb
  · have h1' : i < 32 := lt_of_lt_of_le h1 hfb
    simp [h1, h1', Nat.not_le.mpr h1]
  · have hfi : fb ≤ i := Nat.not_lt.mp h1
    have hdiv : (base / 2^fb).testBit (i - fb) = base.testBit i := by
      rw [← Nat.shiftRight_eq_div_pow, Nat.testBit_shiftRight,
        Nat.add_sub_cancel' hfi]
    by_cases h2' : i < 32
    · simp [h1, h2', hfi, hdiv]
    · have hge : 32 ≤ i := Nat.not_lt.mp h2'
      have hlt : base < 2^i :=
        lt_of_lt_of_le hb (Nat.pow_le_pow_right (by norm_num) hge)
      simp [h1, h2', hfi, hdiv, Nat.testBit_lt_two_pow hlt]

lemma bfi32_clear_low {fb base : ℕ} (hfb : fb ≤ 32) (hb : base < 2^32) :
    bfi32 (2^fb - 1) 0 base = base - base % 2^fb := by
  unfold bfi32
  rcases Nat.eq_zero_or_pos fb with h0 | hpos
  · subst h0
    have hz : ((2:ℕ)^0 - 1) % 2^32 = 0 := by norm_num
    rw [if_pos hz, Nat.mod_eq_of_lt hb]
    simp [Nat.mod_one]
  · have hlt : (2:ℕ)^fb - 1 < 2^32 := by
      have := Nat.pow_le_pow_right (show 1 ≤ 2 by norm_num) hfb
      have h1 : (1:ℕ) ≤ 2^fb := Nat.one_le_two_pow
      omega
    have hmod : (2^fb - 1) % 2^32 = 2^fb - 1 := Nat.mod_eq_of_lt hlt
    have hne : ¬ ((2^fb - 1) % 2^32 = 0) := by
      rw [hmod]
      have : (2:ℕ)^1 ≤ 2^fb := Nat.pow_le_pow_right (by norm_num) hpos
      omega
    rw [if_neg hne, hmod]
    simp only [Nat.zero_mul, Nat.zero_and, Nat.or_zero]
    rw [Nat.mod_eq_of_lt hb]
    exact land_compl_low_mask hfb hb

lemma get_exponent_eq {s : ℕ} (hs : s < 2^64) :
    get_exponent s = s / 2^52 % 2^11 := by
  unfold get_exponent ubitfield_extract32 unpack_double_2x32_split_y
  have hhi : s / 2^32 < 2^32 := by
    apply Nat.div_lt_of_lt_mul
    calc s < 2^64 := hs
    _ = 2^32 * 2^32 := by norm_num
  rw [Nat.mod_eq_of_lt hhi, Nat.mod_eq_of_lt hhi, Nat.shiftRight_eq_div_pow,
    Nat.div_div_eq_div_mul, Nat.and_pow_two_sub_one_eq_mod]
  norm_num

/-- C7 (confirmed).  `fix_inv_result` (shared tail of `lower_rcp` and
the `rsq` branch of `lower_sqrt_rsq`): an input that is exactly `+0`
(pattern `0`) yields `+infinity`; an input that is exactly `-0` (pattern
`2^63`) yields `-infinity`; an input of ±infinity yields `0`; and for any
input that is not a zero, a corrected exponent ≤ 0 forces the result to
`0`.  (The zero-input clause takes priority over the flush clause, as in
the claim's ordering and in the code's final `bcsel`.) -/
theorem c7_fix_inv_result_special_cases (res src exp : ℕ) :
    (src = 0 → fix_inv_result res src exp = 0x7ff0000000000000) ∧
    (src = 2^63 → fix_inv_result res src exp = 0xfff0000000000000) ∧
    (fabs64 src = 0x7ff0000000000000 → fix_inv_result res src exp = 0) ∧
    (fabs64 src ≠ 0 → toSigned32 exp ≤ 0 → fix_inv_result res src exp = 0) := by
  refine ⟨?_, ?_, ?_, ?_⟩
  · intro h
    subst h
    have h1 : fne_zero 0 = false := by decide
    simp only [fix_inv_result, bcsel, h1, Bool.false_eq_true, if_false]
    decide
  · intro h
    subst h
    have h1 : fne_zero (2^63) = false := by decide
    simp only [fix_inv_result, bcsel, h1, Bool.false_eq_true, if_false]
    decide
  · intro h
    have h1 : fne_zero src = true := by
      simp [fne_zero, h]
    have h2 : feq_abs_inf src = true := by
      simp [feq_abs_inf, h]
    simp [fix_inv_result, bcsel, h1, h2]
  · intro h hexp
    have h1 : fne_zero src = true := by
      simp [fne_zero, h]
    have h2 : ige32 0 exp = true := by
      unfold ige32
      rw [decide_eq_true_eq]
      rw [toSigned32_small (by norm_num : (0:ℕ) < 2^31)]
      simpa using hexp
    simp [fix_inv_result, bcsel, h1, h2]

/-- C6 (confirmed).  `lower_trunc` on a 64-bit double pattern `s` with
biased exponent field `ef = s / 2^52 % 2^11` (unbiased exponent
`e = ef - 1023`): if `e < 0` the result is the signed zero carrying the
input sign bit (`2^63 * (s / 2^63)`); if `e ≥ 53` the result is the input
unchanged; if `0 ≤ e < 53` the result clears exactly the low
`52 - e = 1075 - ef` mantissa bits (`s - s % 2^(1075-ef)`), leaving the
sign and integral part untouched.  The two mask-computation arms of the
inserted `if`-region merge at the single phi, modeled by the single
`bcsel condition then_dest else_dest` in the embedding. -/
theorem c6_lower_trunc_cases (s : ℕ) (hs : s < 2^64) :
    (s / 2^52 % 2^11 < 1023 → lower_trunc s = 2^63 * (s / 2^63)) ∧
    (1076 ≤ s / 2^52 % 2^11 → lower_trunc s = s) ∧
    (1023 ≤ s / 2^52 % 2^11 → s / 2^52 % 2^11 < 1076 →
      lower_trunc s = s - s % 2^(1075 - s / 2^52 % 2^11)) := by
  have hge := get_exponent_eq hs
  set ef := s / 2^52 % 2^11 with hef_def
  have hef : ef < 2048 := by
    have := Nat.mod_lt (s / 2^52) (show 0 < 2^11 by norm_num)
    omega
  have hlo : s % 2^32 < 2^32 := Nat.mod_lt _ (by norm_num)
  have hhi : s / 2^32 < 2^32 := by
    apply Nat.div_lt_of_lt_mul
    calc s < 2^64 := hs
    _ = 2^32 * 2^32 := by norm_num
  have hsplit := Nat.div_add_mod s (2^32)
  refine ⟨?_, ?_, ?_⟩
  · intro hA
    have hu : isub32 ef 1023 = ef + 2^32 - 1023 := isub32_eq_of_lt hA (by norm_num)
    have hub1 : 2^31 ≤ ef + 2^32 - 1023 := by omega
    have hub2 : ef + 2^32 - 1023 < 2^32 := by omega
    have hcond1 : ige32 (ef + 2^32 - 1023) 0 = false := by
      unfold ige32
      rw [toSigned32_small (by norm_num : (0:ℕ) < 2^31), toSigned32_large hub1 hub2]
      simp only [decide_eq_false_iff_not, not_le]
      omega
    have hlt0 : ilt32 (ef + 2^32 - 1023) 0 = true := by
      unfold ilt32
      rw [toSigned32_small (by norm_num : (0:ℕ) < 2^31), toSigned32_large hub1 hub2]
      simp only [decide_eq_true_eq]
      omega
    simp only [lower_trunc, hge, hu, hcond1, hlt0, bcsel, Bool.false_and,
      Bool.false_eq_true, if_false, if_true]
    rw [unpack_x_pack (by norm_num), unpack_y_pack (by norm_num) (by norm_num)]
    rw [show (4294967295:ℕ) = 2^32 - 1 from by norm_num,
        show (2147483647:ℕ) = 2^31 - 1 from by norm_num]
    simp only [unpack_double_2x32_split_x, unpack_double_2x32_split_y]
    rw [Nat.mod_eq_of_lt hhi]
    rw [bfi32_clear_low (by norm_num) hlo, bfi32_clear_low (by norm_num) hhi]
    simp only [pack_double_2x32_split]
    omega
  · intro hB
    have hu : isub32 ef 1023 = ef - 1023 := isub32_eq_of_le (by omega) (by omega)
    have hsm : ef - 1023 < 2^31 := by omega
    have hcond1 : ige32 (ef - 1023) 0 = true := by
      rw [ige32_small hsm (by norm_num)]
      simp
    have hcond2 : ilt32 (ef - 1023) 53 = false := by
      rw [ilt32_small hsm (by norm_num)]
      simp only [decide_eq_false_iff_not, not_lt]
      omega
    have hlt0 : ilt32 (ef - 1023) 0 = false := by
      rw [ilt32_small hsm (by norm_num)]
      simp
    simp only [lower_trunc, hge, hu, hcond1, hcond2, hlt0, bcsel, Bool.true_and,
      Bool.false_eq_true, if_false, if_true]
    have hux : unpack_double_2x32_split_x 0 = 0 := rfl
    have huy : unpack_double_2x32_split_y 0 = 0 := rfl
    rw [hux, huy]
    simp only [unpack_double_2x32_split_x, unpack_double_2x32_split_y]
    have hbx : bfi32 0 0 (s % 2^32) = s % 2^32 := by
      unfold bfi32
      rw [if_pos (by norm_num)]
      omega
    have hby : bfi32 0 0 (s / 2^32 % 2^32) = s / 2^32 := by
      unfold bfi32
      rw [if_pos (by norm_num)]
      omega
    rw [hbx, hby]
    simp only [pack_double_2x32_split]
    omega
  · intro hC1 hC2
    have hu : isub32 ef 1023 = ef - 1023 := isub32_eq_of_le (by omega) (by omega)
    set u := ef - 1023 with hu_def
    have hu52 : u ≤ 52 := by omega
    have hfb : isub32 52 u = 52 - u := isub32_eq_of_le (by omega) (by norm_num)
    set fb := 52 - u with hfb_def
    have hfb52 : fb ≤ 52 := by omega
    have hcond1 : ige32 u 0 = true := by
      rw [ige32_small (by omega) (by norm_num)]
      simp
    have hcond2 : ilt32 u 53 = true := by
      rw [ilt32_small (by omega) (by norm_num)]
      simp only [decide_eq_true_eq]
      omega
    have hfb_eq : 1075 - ef = fb := by omega
    rw [hfb_eq]
    simp only [lower_trunc, hge, hu, hfb, hcond1, hcond2, bcsel, Bool.and_self,
      if_true]
    rcases Nat.lt_or_ge fb 33 with hlt33 | hge33
    · -- frac_bits ≤ 32: the low-word mask covers everything, high mask is 0
      have hmlo : (if ige32 fb 32 = true then (4294967295:ℕ)
          else isub32 (ishl32 1 fb) 1) = 2^fb - 1 := by
        rcases Nat.lt_or_ge fb 32 with h32 | h32
        · rw [ige32_small (by omega) (by norm_num), if_neg (by simp; omega)]
          rw [ishl32_one h32]
          rw [isub32_eq_of_le Nat.one_le_two_pow
            (Nat.pow_lt_pow_right (by norm_num) h32)]
        · have hfb32 : fb = 32 := by omega
          rw [ige32_small (by omega) (by norm_num), if_pos (by simp; omega)]
          rw [hfb32]
          norm_num
      have hmhi : (if ilt32 fb 33 = true then (0:ℕ)
          else isub32 (ishl32 1 (isub32 fb 32)) 1) = 0 := by
        rw [ilt32_small (by omega) (by norm_num), if_pos (by simp; omega)]
      rw [hmlo, hmhi]
      have hm1 : (2:ℕ)^fb - 1 < 2^32 := by
        have := Nat.pow_le_pow_right (show 1 ≤ 2 by norm_num) (show fb ≤ 32 by omega)
        have h1 : (1:ℕ) ≤ 2^fb := Nat.one_le_two_pow
        omega
      rw [unpack_x_pack hm1, unpack_y_pack hm1 (by norm_num)]
      simp only [unpack_double_2x32_split_x, unpack_double_2x32_split_y]
      rw [Nat.mod_eq_of_lt hhi]
      rw [bfi32_clear_low (by omega) hlo]
      have hb0 : bfi32 0 0 (s / 2^32) = s / 2^32 := by
        unfold bfi32
        rw [if_pos (by norm_num)]
        omega
      rw [hb0]
      simp only [pack_double_2x32_split]
      have hmm : s % 2^32 % 2^fb = s % 2^fb :=
        Nat.mod_mod_of_dvd s (pow_dvd_pow 2 (by omega))
      have hle : s % 2^fb ≤ s % 2^32 := by
        rw [← hmm]
        exact Nat.mod_le _ _
      omega
    · -- 33 ≤ frac_bits ≤ 52: low word fully cleared, high mask 2^(fb-32)-1
      have hmlo : (if ige32 fb 32 = true then (4294967295:ℕ)
          else isub32 (ishl32 1 fb) 1) = 4294967295 := by
        rw [ige32_small (by omega) (by norm_num), if_pos (by simp; omega)]
      have hi32 : isub32 fb 32 = fb - 32 :=
        isub32_eq_of_le (by omega) (by omega)
      have hmhi : (if ilt32 fb 33 = true then (0:ℕ)
          else isub32 (ishl32 1 (isub32 fb 32)) 1) = 2^(fb-32) - 1 := by
        rw [ilt32_small (by omega) (by norm_num), if_neg (by simp; omega)]
        rw [hi32]
        rw [ishl32_one (by omega : fb - 32 < 32)]
        rw [isub32_eq_of_le Nat.one_le_two_pow
          (Nat.pow_lt_pow_right (by norm_num) (by omega : fb - 32 < 32))]
      rw [hmlo, hmhi]
      have hP : (2:ℕ)^(fb-32) - 1 < 2^32 := by
        have := Nat.pow_le_pow_right (show 1 ≤ 2 by norm_num)
          (show fb - 32 ≤ 32 by omega)
        have h1 : (1:ℕ) ≤ 2^(fb-32) := Nat.one_le_two_pow
        omega
      rw [show (4294967295:ℕ) = 2^32 - 1 from by norm_num]
      rw [unpack_x_pack (by norm_num), unpack_y_pack (by norm_num) hP]
      simp only [unpack_double_2x32_split_x, unpack_double_2x32_split_y]
      rw [Nat.mod_eq_of_lt hhi]
      rw [bfi32_clear_low (le_refl 32) hlo]
      rw [bfi32_clear_low (show fb - 32 ≤ 32 by omega) hhi]
      simp only [pack_double_2x32_split]
      have key : s % 2^fb = s % 2^32 + 2^32 * ((s / 2^32) % 2^(fb-32)) := by
        have h1 : (2:ℕ)^fb = 2^32 * 2^(fb-32) := by
          rw [← pow_add, show 32 + (fb - 32) = fb from by omega]
        have hq := Nat.div_add_mod (s / 2^32) (2^(fb-32))
        have hPpos : 0 < (2:ℕ)^(fb-32) := Nat.pos_pow_of_pos _ (by norm_num)
        have h2 : (s/2^32) % 2^(fb-32) < 2^(fb-32) := Nat.mod_lt _ hPpos
        have hbase : s % 2^32 + 2^32 * ((s/2^32) % 2^(fb-32)) < 2^32 * 2^(fb-32) := by
          calc s % 2^32 + 2^32 * ((s/2^32) % 2^(fb-32))
              < 2^32 + 2^32 * ((s/2^32) % 2^(fb-32)) := by omega
          _ = 2^32 * ((s/2^32) % 2^(fb-32) + 1) := by ring
          _ ≤ 2^32 * 2^(fb-32) := by
              gcongr
              omega
        have hs2 : s = (s % 2^32 + 2^32 * ((s/2^32) % 2^(fb-32))) +
            (2^32 * 2^(fb-32)) * ((s/2^32) / 2^(fb-32)) := by
          calc s = 2^32 * (s/2^32) + s % 2^32 := hsplit.symm
          _ = 2^32 * (2^(fb-32) * ((s/2^32) / 2^(fb-32)) + (s/2^32) % 2^(fb-32))
              + s % 2^32 := by rw [hq]
          _ = _ := by ring
        rw [h1]
        conv_lhs => rw [hs2]
        rw [Nat.add_mul_mod_self_left, Nat.mod_eq_of_lt hbase]
      have hDC : (s/2^32) % 2^(fb-32) ≤ s/2^32 := Nat.mod_le _ _
      omega

/-- Witness for C6 at concrete inputs: `trunc(0.5) = +0` (exponent < 0
branch), `trunc(2^60) = 2^60` (exponent ≥ 53 branch), and
`trunc(1.9) = 1.0` (mantissa-mask branch). -/
theorem c6_lower_trunc_cases_witness :
    lower_trunc 0x3FE0000000000000 = 0 ∧
    lower_trunc 0x43B0000000000000 = 0x43B0000000000000 ∧
    lower_trunc 0x3FFE666666666666 = 0x3FF0000000000000 := by
  refine ⟨?_, ?_, ?_⟩
  · have h := (c6_lower_trunc_cases 0x3FE0000000000000 (by norm_num)).1 (by norm_num)
    rw [h]
    norm_num
  · exact (c6_lower_trunc_cases 0x43B0000000000000 (by norm_num)).2.1 (by norm_num)
  · have h := (c6_lower_trunc_cases 0x3FFE666666666666
      (by norm_num)).2.2 (by norm_num) (by norm_num)
    rw [h]
    norm_num

/-- Witness for C7 at concrete inputs: `+0 → +inf`, `-0 → -inf`,
`+inf → 0`, and a finite input with corrected exponent `0` flushes to `0`. -/
theorem c7_fix_inv_result_special_cases_witness :
    fix_inv_result 42 0 7 = 0x7ff0000000000000 ∧
    fix_inv_result 42 (2^63) 7 = 0xfff0000000000000 ∧
    fix_inv_result 42 0x7ff0000000000000 7 = 0 ∧
    fix_inv_result 42 0x3ff0000000000000 0 = 0 := by
  refine ⟨(c7_fix_inv_result_special_cases 42 0 7).1 rfl,
    (c7_fix_inv_result_special_cases 42 (2^63) 7).2.1 rfl,
    (c7_fix_inv_result_special_cases 42 0x7ff0000000000000 7).2.2.1 (by decide),
    (c7_fix_inv_result_special_cases 42 0x3ff0000000000000 0).2.2.2
      (by decide) (by decide)⟩

/-- C9 (confirmed).  For every decomposition-function instantiation,
option set, instruction and program: if the instruction's destination bit
width is not 64, or its opcode is not one of the eight handled operations,
or the flag for its opcode is not enabled, the program (the instruction
and everything else) is returned completely unchanged; otherwise the
result is exactly the input program with every use of the instruction's
destination value rewritten to the value of the matching decomposition
function applied to the materialized first operand, and with the
instruction itself removed. -/
theorem c9_lower_doubles_instr_frame (fns : DecompFns) (options : DOptions)
    (instr : DInstr) (prog : List DInstr) :
    ((instr.bitSize ≠ 64 ∨ handledFlag options instr.op = none ∨
        handledFlag options instr.op = some false) →
      lower_doubles_instr fns options instr prog = prog) ∧
    (instr.bitSize = 64 → handledFlag options instr.op = some true →
      lower_doubles_instr fns options instr prog =
        (prog.map (rewriteUses instr.destVal
          (dispatchDecomp fns instr.op (instr.srcs.getD 0 0)))).filter
          (fun j => j.iid ≠ instr.iid)) := by
  constructor
  · rintro (h | h | h)
    · simp [lower_doubles_instr, h]
    · cases hop : instr.op <;> simp_all [lower_doubles_instr, handledFlag]
    · cases hop : instr.op <;> simp_all [lower_doubles_instr, handledFlag]
  · intro h64 hflag
    cases hop : instr.op <;>
      simp_all [lower_doubles_instr, handledFlag, dispatchDecomp]

/-- Witness for C9: a 32-bit instruction leaves the program unchanged,
while lowering an enabled 64-bit `frcp` removes it and rewrites the other
instruction's use of value `9` to the decomposition result `6`. -/
theorem c9_lower_doubles_instr_frame_witness :
    lower_doubles_instr c9fns c9opts c9other c9prog = c9prog ∧
    lower_doubles_instr c9fns c9opts c9instr c9prog =
      [⟨2, .otherOp 0, 32, [6, 5], 11⟩] := by
  constructor
  · exact (c9_lower_doubles_instr_frame c9fns c9opts c9other c9prog).1
      (Or.inl (by decide))
  · rw [(c9_lower_doubles_instr_frame c9fns c9opts c9instr c9prog).2 rfl
      (by decide)]
    rfl

/-- C2 (code_bug evidence).  In `c2prog`, component 1's source is an
exact alias of the destination register and stays unfinished after
(empty) producer folding, so the claim requires its MOV to be emitted
before every other MOV of this vec.  Evaluating the pass shows the
replacement sequence is `[mov(comp 0 ← reg1), mov(comp 1 ← reg2)]` — the
pre-pass loop at lines 223-235 skips every channel whose finished bit is
clear (`if (!(finished_write_mask & (1 << i))) continue;`), so the
self-alias MOV is emitted second, after the write that can shadow its
source.  The second conjunct makes the ordering violation explicit: the
non-alias MOV's index is strictly smaller. -/
theorem c2_self_alias_mov_emitted_second :
    (lower_vec_to_movs_one c2vec c2prog 50).prog =
      [.nonAlu 10 [1] [],
       .alu ⟨50, .imov, ⟨.reg 2 0 false, 1⟩, [⟨.reg 1 0 false, [0, 0, 0, 0]⟩]⟩,
       .alu ⟨51, .imov, ⟨.reg 2 0 false, 2⟩, [⟨.reg 2 0 false, [0, 0, 0, 0]⟩]⟩,
       .nonAlu 12 [] [.reg 2 0 false]] ∧
    (lower_vec_to_movs_one c2vec c2prog 50).prog.findIdx (movWritesComp 2 0) <
      (lower_vec_to_movs_one c2vec c2prog 50).prog.findIdx (movWritesComp 2 1) := by
  exact ⟨rfl, by decide⟩

/-- C3 (code_bug evidence).  In `c34prog` the replacement sequence
for the vec writes destination component 1 twice — once by the folded
clone of the `fadd` producer and once by the MOV the buggy pre-pass loop
emits for the finished component (reading source 0 because `src_idx` is
not advanced over skipped unfinished channels) — violating
"each such component is written exactly once". -/
theorem c3_component_written_twice :
    countWriters (lower_vec_to_movs_one c34vec c34prog 50).prog 2 1 = 2 := by
  decide

/-- C4 (code_bug evidence).  In `c34prog` producer folding fires for
component 1 (register 3's sole use, non-move `fadd` producer): the
producer (id 13) is recorded as folded and no longer appears in the
output, and its clone targeting destination component 1 is present —
that much matches the claim.  But a separate MOV instruction also writes
destination component 1 (emitted by the pre-pass loop whose finished-bit
guard is inverted), contradicting the claim's "no separate move
instruction ... writes that same destination component". -/
theorem c4_folded_component_also_has_mov :
    (lower_vec_to_movs_one c34vec c34prog 50).folded = [13] ∧
    ((lower_vec_to_movs_one c34vec c34prog 50).prog.any
      (fun j => instrId j == 13)) = false ∧
    ((lower_vec_to_movs_one c34vec c34prog 50).prog.any
      (fun j => j == VInstr.alu
        (clone_alu_instr_and_override_dest c34P c34vec.dest 1 50))) = true ∧
    ((lower_vec_to_movs_one c34vec c34prog 50).prog.any
      (movWritesComp 2 1)) = true := by
  exact ⟨rfl, by decide, by decide, by decide⟩

/-! Helper lemmas about program-list surgery. -/

lemma mem_insertBefore_of_mem {t : ℕ} {n x : VInstr} {l : List VInstr}
    (h : x ∈ l) : x ∈ insertBefore t n l := by
  induction l with
  | nil => cases h
  | cons j rest ih =>
    unfold insertBefore
    by_cases hj : instrId j = t
    · rw [if_pos hj]
      exact List.mem_cons_of_mem _ h
    · rw [if_neg hj]
      rcases List.mem_cons.mp h with h | h
      · exact h ▸ List.mem_cons_self _ _
      · exact List.mem_cons_of_mem _ (ih h)

lemma mem_insertBefore_elim {t : ℕ} {n x : VInstr} {l : List VInstr}
    (h : x ∈ insertBefore t n l) : x = n ∨ x ∈ l := by
  induction l with
  | nil => simpa [insertBefore] using h
  | cons j rest ih =>
    unfold insertBefore at h
    by_cases hj : instrId j = t
    · rw [if_pos hj] at h
      rcases List.mem_cons.mp h with h | h
      · exact Or.inl h
      · exact Or.inr h
    · rw [if_neg hj] at h
      rcases List.mem_cons.mp h with h | h
      · exact Or.inr (h ▸ List.mem_cons_self _ _)
      · rcases ih h with h2 | h2
        · exact Or.inl h2
        · exact Or.inr (List.mem_cons_of_mem _ h2)

lemma mem_removeInstr_iff {i : ℕ} {x : VInstr} {l : List VInstr} :
    x ∈ removeInstr i l ↔ x ∈ l ∧ instrId x ≠ i := by
  simp [removeInstr, List.mem_filter]

/-- C10 (confirmed).  (1) Every clone built by
`clone_alu_instr_and_override_dest` writes exactly the one destination
component `index` being satisfied, whatever the producer's original write
mask was.  (2) For non-dot-product opcodes, the clone's source swizzle at
`index` is the producer's swizzle at the producer's lowest-numbered
written channel.  (3) When the fold step fires (register use count 1,
non-move ALU producer), the producer instruction is removed wholesale
from the program — all its component definitions disappear with it. -/
theorem c10_clone_mask_swizzle_and_removal :
    (∀ (alu : VAluInstr) (new_dest : VAluDest) (index cloneId : ℕ),
      (clone_alu_instr_and_override_dest alu new_dest index cloneId).dest.writeMask
        = 1 <<< index) ∧
    (∀ (alu : VAluInstr) (new_dest : VAluDest) (index cloneId k : ℕ),
      k < alu.srcs.length →
      (alu.srcs.getD k defaultAluSrc).swizzle.length = 4 → index < 4 →
      alu.op ≠ .fdot2 → alu.op ≠ .fdot3 → alu.op ≠ .fdot4 →
      ((clone_alu_instr_and_override_dest alu new_dest index cloneId).srcs.getD k
          defaultAluSrc).swizzle.getD index 0 =
        (alu.srcs.getD k defaultAluSrc).swizzle.getD
          (lowestChannel alu.dest.writeMask) 0) ∧
    (∀ (vec parent : VAluInstr) (i : ℕ) (s : PassState) (r b : ℕ) (ind : Bool),
      parent.dest.dst = VSrcRef.reg r b ind →
      usesCount s.prog r = 1 → parent.op ≠ .imov →
      (∀ j ∈ s.prog, instrId j < s.fresh) → VInstr.alu parent ∈ s.prog →
      ∀ j ∈ (fold_one_def vec i s (.alu parent)).prog, instrId j ≠ parent.aid) := by
  refine ⟨?_, ?_, ?_⟩
  · intro alu new_dest index cloneId
    rfl
  · intro alu new_dest index cloneId k hk hlen hidx hd2 hd3 hd4
    have hdot : (alu.op == VOp.fdot2 || alu.op == VOp.fdot3 ||
        alu.op == VOp.fdot4) = false := by
      simp [hd2, hd3, hd4]
    simp only [clone_alu_instr_and_override_dest, hdot, Bool.false_eq_true,
      if_false]
    have hmap : ∀ (f : VAluSrc → VAluSrc),
        ((alu.srcs.map f).getD k defaultAluSrc) = f (alu.srcs.getD k defaultAluSrc) := by
      intro f
      rw [List.getD_eq_getElem?_getD, List.getD_eq_getElem?_getD,
        List.getElem?_map, List.getElem?_eq_getElem hk]
      rfl
    rw [hmap]
    have hset : ((alu.srcs.getD k defaultAluSrc).swizzle.set index
        ((alu.srcs.getD k defaultAluSrc).swizzle.getD
          (lowestChannel alu.dest.writeMask) 0)).getD index 0 =
        (alu.srcs.getD k defaultAluSrc).swizzle.getD
          (lowestChannel alu.dest.writeMask) 0 := by
      rw [List.getD_eq_getElem?_getD, List.getElem?_set_self (by omega)]
      rfl
    exact hset
  · intro vec parent i s r b ind hdst huses hop hbound hmem j hj
    have hlt : parent.aid < s.fresh := hbound _ hmem
    have hopb : (parent.op == VOp.imov) = false := by
      simp [hop]
    simp only [fold_one_def, hdst] at hj
    rw [if_neg (by simp [huses]), if_neg (by simp [hopb])] at hj
    rcases mem_insertBefore_elim hj with h | h
    · subst h
      simp only [instrId, clone_alu_instr_and_override_dest]
      omega
    · exact (mem_removeInstr_iff.mp h).2

/-- Witness for C10 on a producer whose write mask has two bits set
(mask 6, channels 1 and 2; lowest is 1): the clone for vec channel 0
writes exactly mask 1, its swizzle entry 0 is the producer's swizzle at
channel 1 (value 2), and the fold step removes producer id 20 from the
program entirely. -/
theorem c10_clone_mask_swizzle_and_removal_witness :
    (clone_alu_instr_and_override_dest c10P c10vec.dest 0 40).dest.writeMask = 1 ∧
    ((clone_alu_instr_and_override_dest c10P c10vec.dest 0 40).srcs.getD 0
        defaultAluSrc).swizzle.getD 0 0 = 2 ∧
    (∀ j ∈ (fold_one_def c10vec 0 c10state (.alu c10P)).prog,
      instrId j ≠ 20) := by
  refine ⟨?_, ?_, ?_⟩
  · have h := c10_clone_mask_swizzle_and_removal.1 c10P c10vec.dest 0 40
    simpa using h
  · have h := c10_clone_mask_swizzle_and_removal.2.1 c10P c10vec.dest 0 40 0
      (by decide) (by decide) (by norm_num) (by decide) (by decide) (by decide)
    rw [h]
    decide
  · exact c10_clone_mask_swizzle_and_removal.2.2 c10vec c10P 0 c10state 7 0 false
      rfl (by decide) (by decide)
      (by
        intro j hj
        simp only [c10state, List.mem_cons, List.not_mem_nil, or_false] at hj
        rcases hj with rfl | rfl <;> decide)
      (by decide)

/-! C5 machinery: the pass preserves a MOV-opcode instruction. -/

lemma insertBefore_map_id_perm (t : ℕ) (n : VInstr) (l : List VInstr) :
    ((insertBefore t n l).map instrId).Perm (instrId n :: l.map instrId) := by
  induction l with
  | nil => simp [insertBefore]
  | cons j rest ih =>
    unfold insertBefore
    by_cases hj : instrId j = t
    · rw [if_pos hj]
      simp
    · rw [if_neg hj]
      simp only [List.map_cons]
      exact (ih.cons _).trans (List.Perm.swap _ _ _)

lemma removeInstr_ids_sublist (i : ℕ) (l : List VInstr) :
    ((removeInstr i l).map instrId).Sublist (l.map instrId) :=
  (List.filter_sublist l).map instrId

lemma surv_insert {P : VAluInstr} {s : PassState} (h : SurvInv P s)
    {t : ℕ} {m : VInstr} (hm : instrId m = s.fresh) (f2 : ℕ) :
    SurvInv P ⟨insertBefore t m s.prog, s.fresh + 1, f2, s.folded⟩ := by
  obtain ⟨h1, h2, h3, h4⟩ := h
  refine ⟨mem_insertBefore_of_mem h1, ?_, ?_, h4⟩
  · intro j hj
    rcases mem_insertBefore_elim hj with hj | hj
    · subst hj
      exact hm ▸ Nat.lt_succ_self s.fresh
    · exact Nat.lt_succ_of_lt (h2 j hj)
  · refine ((insertBefore_map_id_perm t m s.prog).nodup_iff).mpr ?_
    refine List.nodup_cons.mpr ⟨?_, h3⟩
    intro hmem
    rcases List.mem_map.mp hmem with ⟨j, hj, hjid⟩
    have hlt := h2 j hj
    rw [hjid, hm] at hlt
    exact lt_irrefl _ hlt

lemma surv_fold_one_def {P vec : VAluInstr} (hPop : P.op = .imov) {i : ℕ}
    {s : PassState} (h : SurvInv P s) {d : VInstr}
    (hd : d = VInstr.alu P ∨ instrId d ≠ P.aid) :
    SurvInv P (fold_one_def vec i s d) := by
  obtain ⟨h1, h2, h3, h4⟩ := h
  cases d with
  | nonAlu a b c => exact ⟨h1, h2, h3, h4⟩
  | alu parent =>
    cases hdd : parent.dest.dst with
    | ssa v => simpa [fold_one_def, hdd] using (⟨h1, h2, h3, h4⟩ : SurvInv P s)
    | reg r bo ind =>
      by_cases hu : usesCount s.prog r ≠ 1
      · simpa [fold_one_def, hdd, hu] using (⟨h1, h2, h3, h4⟩ : SurvInv P s)
      · by_cases hi : parent.op = VOp.imov
        · simp only [fold_one_def, hdd]
          rw [if_neg hu, if_pos (by simp [hi])]
          exact ⟨h1, h2, h3, h4⟩
        · have hne : parent.aid ≠ P.aid := by
            rcases hd with hd | hd
            · cases hd
              exact absurd hPop hi
            · simpa [instrId] using hd
          simp only [fold_one_def, hdd]
          rw [if_neg hu, if_neg (by simp [hi])]
          have hclid : instrId (VInstr.alu
              (clone_alu_instr_and_override_dest parent vec.dest i s.fresh))
              = s.fresh := rfl
          refine ⟨?_, ?_, ?_, ?_⟩
          · exact mem_insertBefore_of_mem
              (mem_removeInstr_iff.mpr ⟨h1, by simpa [instrId] using hne.symm⟩)
          · intro j hj
            rcases mem_insertBefore_elim hj with hj | hj
            · subst hj
              exact hclid ▸ Nat.lt_succ_self s.fresh
            · exact Nat.lt_succ_of_lt (h2 j (mem_removeInstr_iff.mp hj).1)
          · refine ((insertBefore_map_id_perm _ _ _).nodup_iff).mpr ?_
            refine List.nodup_cons.mpr ⟨?_, h3.sublist (removeInstr_ids_sublist _ _)⟩
            intro hmem
            rcases List.mem_map.mp hmem with ⟨j, hj, hjid⟩
            have hlt := h2 j (mem_removeInstr_iff.mp hj).1
            rw [hjid, hclid] at hlt
            exact lt_irrefl _ hlt
          · intro hmem
            rcases List.mem_append.mp hmem with hmem | hmem
            · exact h4 hmem
            · simp only [List.mem_singleton] at hmem
              exact hne hmem.symm

lemma surv_foldl {P vec : VAluInstr} (hPop : P.op = .imov) {i : ℕ} :
    ∀ (l : List VInstr) (s : PassState), SurvInv P s →
      (∀ d ∈ l, d = VInstr.alu P ∨ instrId d ≠ P.aid) →
      SurvInv P (l.foldl (fold_one_def vec i) s) := by
  intro l
  induction l with
  | nil =>
    intro s h _
    simpa using h
  | cons d rest ih =>
    intro s h hl
    simp only [List.foldl_cons]
    exact ih _ (surv_fold_one_def hPop h (hl d (by simp)))
      (fun d2 hd2 => hl d2 (by simp [hd2]))

lemma surv_fold_channel {P vec : VAluInstr} (hPop : P.op = .imov)
    {s : PassState} (h : SurvInv P s) (i : ℕ) :
    SurvInv P (fold_channel vec s i) := by
  unfold fold_channel
  by_cases ht : vec.dest.writeMask.testBit i = false
  · rw [if_pos ht]
    exact h
  · rw [if_neg ht]
    cases hsrc : (vec.srcs.getD i defaultAluSrc).src with
    | ssa v => exact h
    | reg r bo ind =>
      refine surv_foldl hPop _ _ h ?_
      intro d hd
      have hdp : d ∈ s.prog := List.mem_of_mem_filter hd
      by_cases hid : instrId d = P.aid
      · left
        exact List.inj_on_of_nodup_map h.2.2.1 hdp h.1 (by simpa [instrId] using hid)
      · right
        exact hid

lemma surv_fold_phase {P vec : VAluInstr} (hPop : P.op = .imov)
    {s : PassState} (h : SurvInv P s) : SurvInv P (fold_phase vec s) := by
  simp only [fold_phase, List.foldl_cons, List.foldl_nil]
  exact surv_fold_channel hPop
    (surv_fold_channel hPop (surv_fold_channel hPop (surv_fold_channel hPop h 0) 1) 2) 3

lemma surv_pre_mov_loop {P vec : VAluInstr} :
    ∀ (fuel i si : ℕ) (s : PassState), SurvInv P s →
      SurvInv P (pre_mov_loop vec fuel i si s) := by
  intro fuel
  induction fuel with
  | zero =>
    intro i si s h
    simpa [pre_mov_loop] using h
  | succ fuel ih =>
    intro i si s h
    simp only [pre_mov_loop]
    by_cases h4 : i < 4
    · rw [if_pos h4]
      by_cases hwm : vec.dest.writeMask.testBit i = false
      · rw [if_pos hwm]
        exact ih _ _ _ h
      · rw [if_neg hwm]
        by_cases hfin : s.finished.testBit i = false
        · rw [if_pos hfin]
          exact ih _ _ _ h
        · rw [if_neg hfin]
          by_cases hsm : src_matches_dest_reg vec.dest.dst
              (vec.srcs.getD si defaultAluSrc).src = true
          · rw [if_pos hsm]
            refine surv_insert h ?_ _
            rfl
          · rw [if_neg hsm]
            exact ih _ _ _ h
    · rw [if_neg h4]
      exact h

lemma surv_emit_mov_loop {P vec : VAluInstr} :
    ∀ (fuel i si : ℕ) (s : PassState), SurvInv P s →
      SurvInv P (emit_mov_loop vec fuel i si s) := by
  intro fuel
  induction fuel with
  | zero =>
    intro i si s h
    simpa [emit_mov_loop] using h
  | succ fuel ih =>
    intro i si s h
    simp only [emit_mov_loop]
    by_cases h4 : i < 4
    · rw [if_pos h4]
      by_cases hwm : vec.dest.writeMask.testBit i = false
      · rw [if_pos hwm]
        exact ih _ _ _ h
      · rw [if_neg hwm]
        by_cases hfin : s.finished.testBit i = false
        · rw [if_pos hfin]
          refine ih _ _ _ (surv_insert h ?_ _)
          rfl
        · rw [if_neg hfin]
          exact ih _ _ _ h
    · rw [if_neg h4]
      exact h

/-- C5 (confirmed).  Producer folding never folds a bare-move
(`imov`) producer: for any program with well-formed (bounded, duplicate
free) instruction ids containing the vec instruction, every `imov`
instruction in the program survives the whole per-vec lowering unchanged
in place and its id never enters the ghost `folded` trace (it is neither
cloned into the vec's destination nor removed), regardless of its
destination register's use count.  This quantifies over all `imov`
instructions in the program, a superset of the defining instructions of
the vec's source registers named by the claim. -/
theorem c5_imov_producer_never_folded (prog : List VInstr)
    (vec P : VAluInstr) (fresh : ℕ)
    (hvec : VInstr.alu vec ∈ prog)
    (hvop : vec.op = .vec2 ∨ vec.op = .vec3 ∨ vec.op = .vec4)
    (hP : VInstr.alu P ∈ prog) (hPop : P.op = .imov)
    (hbound : ∀ j ∈ prog, instrId j < fresh)
    (hnodup : (prog.map instrId).Nodup) :
    VInstr.alu P ∈ (lower_vec_to_movs_one vec prog fresh).prog ∧
      P.aid ∉ (lower_vec_to_movs_one vec prog fresh).folded := by
  have hvne : vec.aid ≠ P.aid := by
    intro he
    have heq : VInstr.alu vec = VInstr.alu P :=
      List.inj_on_of_nodup_map hnodup hvec hP (by simpa [instrId] using he)
    have : vec = P := by injection heq
    rcases hvop with h | h | h <;> rw [this, hPop] at h <;> cases h
  have h0 : SurvInv P ⟨prog, fresh, 0, []⟩ := ⟨hP, hbound, hnodup, by simp⟩
  have h1 := @surv_fold_phase P vec hPop _ h0
  have h2 := @surv_pre_mov_loop P vec 4 0 0 _ h1
  have h3 := @surv_emit_mov_loop P vec 4 0 0 _ h2
  unfold lower_vec_to_movs_one
  constructor
  · exact mem_removeInstr_iff.mpr ⟨h3.1, by simpa [instrId] using hvne.symm⟩
  · exact h3.2.2.2

/-- Witness for C5: register 5 is defined by the `imov` instruction 21
and has exactly one use (the vec), so only the move-opcode guard prevents
folding — and indeed instruction 21 survives the pass and is never
folded. -/
theorem c5_imov_producer_never_folded_witness :
    VInstr.alu c5P ∈ (lower_vec_to_movs_one c5vec c5prog 60).prog ∧
      c5P.aid ∉ (lower_vec_to_movs_one c5vec c5prog 60).folded :=
  c5_imov_producer_never_folded c5prog c5vec c5P 60 (by decide)
    (Or.inl rfl) (by decide) rfl
    (by
      intro j hj
      simp only [c5prog, List.mem_cons, List.not_mem_nil, or_false] at hj
      rcases hj with rfl | rfl <;> decide)
    (by decide)
